import Mathlib

/-!
# surrealtest: the response decoder (`unmarshall.go`) and `checkQueryResponse` (`helpers.go`)

A shallow embedding of `SmartUnmarshalAll` and of `checkQueryResponse`.

Modelling conventions.

* A Go `interface{}` holding what `encoding/json` produces (nil, bool, float64, string,
  `[]interface{}`, `map[string]interface{}`) is a `DynamicValue`.  A map is carried as the list
  of its entries in the order `json.Marshal` writes them (sorted by key).
* `json.Marshal` of such a value cannot fail, and `json.Unmarshal` of the bytes it wrote reads
  the same tree back, so `Marshal` followed by `Unmarshal` is modelled as one decoding step on
  the tree.
* A Go `error` is a `GoError` (with `Option GoError` for a possibly-nil error), keeping the
  structure `errors.Is` looks at.
* A nil slice and an empty slice are both `[]`.
* `fmt.Printf` in `handleInterfaces` only writes to standard output and is left out.
-/

namespace Surrealtest

/-! ## Data model -/

/-- A dynamically typed value as produced by `encoding/json` into `interface{}`. A number
(`float64`) is carried by the text `fmt` prints for it under `%v`. -/
inductive DynamicValue where
  | null
  | bool (b : Bool)
  | num (text : String)
  | str (s : String)
  | seq (items : List DynamicValue)
  | map (entries : List (String × DynamicValue))

/-- Go error values that the decoder can build or pass on. -/
inductive GoError where
  /-- the package variable `errNotRawQuery` -/
  | errNotRawQuery
  /-- an error made by `fmt.Errorf` without `%w`, or by `errors.New` -/
  | errorString (s : String)
  /-- a `*json.UnmarshalTypeError` with its `Value`, `Struct`, `Field` and `Type` -/
  | unmarshalTypeError (value struct field type : String)
  /-- an error made by `fmt.Errorf` with one `%w`: the formatted message and the wrapped error -/
  | wrapError (msg : String) (err : GoError)
  /-- the result of `errors.Join`: the non-nil errors, in order -/
  | joinError (errs : List GoError)

mutual
/-- The `Error()` method. -/
def GoError.Error : GoError → String
  | .errNotRawQuery => "not a RawQuery"
  | .errorString s => s
  | .unmarshalTypeError value struct field type =>
    if struct ≠ "" ∨ field ≠ "" then
      "json: cannot unmarshal " ++ value ++ " into Go struct field " ++ struct ++ "." ++ field
        ++ " of type " ++ type
    else
      "json: cannot unmarshal " ++ value ++ " into Go value of type " ++ type
  | .wrapError msg _ => msg
  | .joinError errs => "\n".intercalate (GoError.ErrorList errs)
/-- The messages of a list of errors. -/
def GoError.ErrorList : List GoError → List String
  | [] => []
  | e :: es => e.Error :: GoError.ErrorList es
end

mutual
/-- `errors.Is(err, errNotRawQuery)` for a non-nil `err`: the sentinel is only equal to itself,
a `%w` error is unwrapped, a joined error is searched. -/
def errorsIsNotRawQuery : GoError → Bool
  | .errNotRawQuery => true
  | .errorString _ => false
  | .unmarshalTypeError _ _ _ _ => false
  | .wrapError _ err => errorsIsNotRawQuery err
  | .joinError errs => errorsIsNotRawQueryAny errs
/-- Whether `errors.Is` succeeds on one of the errors of a joined error. -/
def errorsIsNotRawQueryAny : List GoError → Bool
  | [] => false
  | e :: es => errorsIsNotRawQuery e || errorsIsNotRawQueryAny es
end

/-- `errors.Join`: nil when every error is nil, else the non-nil errors joined. -/
def errorsJoin (errs : List (Option GoError)) : Option GoError :=
  match errs.filterMap id with
  | [] => none
  | es => some (.joinError es)

/-! ## `encoding/json` and `fmt`, as far as the decoder uses them -/

/-- How `encoding/json` folds one character of an object key before comparing it with a field
name: ASCII letters lose their case, and the two non-ASCII characters whose case folding is an
ASCII letter, U+017F (long s) and U+212A (Kelvin sign), become `S` and `K`. -/
def foldRune (c : Char) : Char :=
  if 97 ≤ c.toNat ∧ c.toNat ≤ 122 then Char.ofNat (c.toNat - 32)
  else if c.toNat = 0x17F then 'S'
  else if c.toNat = 0x212A then 'K'
  else c

/-- The folded form of a key. -/
def foldName (s : String) : String := String.mk (s.data.map foldRune)

/-- Whether `encoding/json` stores the object entry named `key` into the struct field whose
JSON name is `name`: an exact match or a match up to case folding. -/
def equalFold (name key : String) : Bool := decide (foldName name = foldName key)

/-- The word `encoding/json` uses for a JSON value in an `UnmarshalTypeError`. -/
def jsonKind : DynamicValue → String
  | .null => "null"
  | .bool _ => "bool"
  | .num _ => "number"
  | .str _ => "string"
  | .seq _ => "array"
  | .map _ => "object"

/-- Decoding a JSON value into a Go `string` field that now holds `old`: a string is stored,
`null` leaves the field as it is, anything else leaves it and reports a type error. -/
def storeString (struct field : String) (old : String) : DynamicValue → String × Option GoError
  | .str s => (s, none)
  | .null => (old, none)
  | v => (old, some (.unmarshalTypeError (jsonKind v) struct field "string"))

mutual
/-- How `fmt` prints a value nested in a slice or map under `%s`. -/
def fmtValue : DynamicValue → String
  | .null => "<nil>"
  | .bool b => "%!s(bool=" ++ (if b then "true" else "false") ++ ")"
  | .num text => "%!s(float64=" ++ text ++ ")"
  | .str s => s
  | .seq items => "[" ++ " ".intercalate (fmtValues items) ++ "]"
  | .map entries => "map[" ++ " ".intercalate (fmtEntries entries) ++ "]"
/-- The printed elements of a slice. -/
def fmtValues : List DynamicValue → List String
  | [] => []
  | v :: vs => fmtValue v :: fmtValues vs
/-- The printed `key:value` entries of a map. -/
def fmtEntries : List (String × DynamicValue) → List String
  | [] => []
  | (k, v) :: es => (k ++ ":" ++ fmtValue v) :: fmtEntries es
end

/-- How `fmt` prints an `interface{}` argument under `%s`: as `fmtValue`, except that a nil
argument is reported as a bad verb. -/
def fmtS : DynamicValue → String
  | .null => "%!s(<nil>)"
  | v => fmtValue v

/-! ## `unmarshall.go` -/

/-- The struct `RawQuery[any]`; a nil `Result` is `DynamicValue.null`. -/
structure RawQuery where
  Status : String
  Time : String
  Result : DynamicValue
  Detail : String

/-- The zero value of `RawQuery[any]`. -/
def RawQuery.zero : RawQuery := ⟨"", "", .null, ""⟩

/-- The first error `encoding/json` saw is the one it keeps. -/
def saveError (saved new : Option GoError) : Option GoError :=
  match saved with
  | some e => some e
  | none => new

/-- One object entry decoded into a `RawQuery[any]`. -/
def RawQuery.setField (st : RawQuery × Option GoError) (kv : String × DynamicValue) :
    RawQuery × Option GoError :=
  let raw := st.1
  if equalFold "status" kv.1 then
    let r := storeString "RawQuery[interface \x7b\x7d]" "status" raw.Status kv.2
    ({ raw with Status := r.1 }, saveError st.2 r.2)
  else if equalFold "time" kv.1 then
    let r := storeString "RawQuery[interface \x7b\x7d]" "time" raw.Time kv.2
    ({ raw with Time := r.1 }, saveError st.2 r.2)
  else if equalFold "result" kv.1 then
    ({ raw with Result := kv.2 }, st.2)
  else if equalFold "detail" kv.1 then
    let r := storeString "RawQuery[interface \x7b\x7d]" "detail" raw.Detail kv.2
    ({ raw with Detail := r.1 }, saveError st.2 r.2)
  else st

/-- The call `json.Unmarshal(x, &raw)` on the bytes of `input`, into a zero `RawQuery[any]`:
what `raw` holds afterwards and the error returned. -/
def unmarshalRawQuery : DynamicValue → RawQuery × Option GoError
  | .null => (RawQuery.zero, none)
  | .map entries => entries.foldl RawQuery.setField (RawQuery.zero, none)
  | v => (RawQuery.zero,
      some (.unmarshalTypeError (jsonKind v) "" "" "surrealtest.RawQuery[interface \x7b\x7d]"))

/-- The function `handleAsRawQuery`. -/
def handleAsRawQuery (input : DynamicValue) : Except GoError DynamicValue :=
  let r := unmarshalRawQuery input
  match r.2 with
  | some err => .error (.wrapError ("failed to unmarshal to RawQuery: " ++ err.Error) err)
  | none =>
    let raw := r.1
    if raw.Status = "" then
      .error (.wrapError GoError.errNotRawQuery.Error .errNotRawQuery)
    else if raw.Status ≠ "OK" then
      .error (.errorString (raw.Status ++ ": " ++ fmtS raw.Result))
    else
      .ok raw.Result

/-- The function `handleAsData`. The argument `unmarshal` is `json.Unmarshal` into the target
type `I`, from the bytes of a value and into a zero `I`. -/
def handleAsData {I : Type} (unmarshal : DynamicValue → Except GoError I)
    (input : DynamicValue) : Except GoError I :=
  match unmarshal input with
  | .error err => .error (.wrapError ("failed to unmarshal to RawQuery: " ++ err.Error) err)
  | .ok i => .ok i

mutual
/-- The function `handleInterfaces`: a slice is decoded element by element, anything else goes
to `handleInput`. -/
def handleInterfaces {I : Type} (unmarshal : DynamicValue → Except GoError I)
    (input : DynamicValue) : List I × Option GoError :=
  match input with
  | .seq inputs =>
    let r := handleInterfacesLoop unmarshal inputs [] []
    if r.2.length > 0 then (r.1, errorsJoin r.2) else (r.1, none)
  | .null => handleInput unmarshal .null
  | .bool b => handleInput unmarshal (.bool b)
  | .num t => handleInput unmarshal (.num t)
  | .str s => handleInput unmarshal (.str s)
  | .map entries => handleInput unmarshal (.map entries)
termination_by (sizeOf input, 1)
decreasing_by
  all_goals simp_wf
  all_goals first
    | (apply Prod.Lex.right; decide) | (apply Prod.Lex.left; simp)
/-- The `for` loop of `handleInterfaces` over the elements still to visit, with the current
`result` and `errs`. -/
def handleInterfacesLoop {I : Type} (unmarshal : DynamicValue → Except GoError I)
    (inputs : List DynamicValue) (result : List I) (errs : List (Option GoError)) :
    List I × List (Option GoError) :=
  match inputs with
  | [] => (result, errs)
  | i :: rest =>
    let r := handleInterfaces unmarshal i
    handleInterfacesLoop unmarshal rest (result ++ r.1) (errs ++ [r.2])
termination_by (sizeOf inputs, 0)
decreasing_by
  all_goals simp_wf
  all_goals apply Prod.Lex.left
  all_goals omega
/-- The function `handleInput`. -/
def handleInput {I : Type} (unmarshal : DynamicValue → Except GoError I)
    (input : DynamicValue) : List I × Option GoError :=
  match h : handleAsRawQuery input with
  | .error err =>
    if !errorsIsNotRawQuery err then ([], some err)
    else
      match handleAsData unmarshal input with
      | .error err => ([], some err)
      | .ok data => ([data], none)
  | .ok unwrapped => handleInterfaces unmarshal unwrapped
termination_by (sizeOf input, 0)
decreasing_by
  apply Prod.Lex.left
  -- what `handleAsRawQuery` unwraps is null or the value of an entry of the Mapping
  have hfold : ∀ (entries : List (String × DynamicValue)) (st : RawQuery × Option GoError),
      (entries.foldl RawQuery.setField st).1.Result = st.1.Result ∨
        ∃ kv ∈ entries, (entries.foldl RawQuery.setField st).1.Result = kv.2 := by
    intro entries
    induction entries with
    | nil => exact fun _ => Or.inl rfl
    | cons kv rest ih =>
      intro st
      rw [List.foldl_cons]
      rcases ih (RawQuery.setField st kv) with h1 | ⟨kv2, hmem, h1⟩
      · have hstep : (RawQuery.setField st kv).1.Result = st.1.Result ∨
            (RawQuery.setField st kv).1.Result = kv.2 := by
          unfold RawQuery.setField
          split_ifs <;> simp
        rcases hstep with h2 | h2
        · exact Or.inl (h1.trans h2)
        · exact Or.inr ⟨kv, List.mem_cons_self _ _, h1.trans h2⟩
      · exact Or.inr ⟨kv2, List.mem_cons_of_mem _ hmem, h1⟩
  unfold handleAsRawQuery at h
  simp only at h
  split at h
  · exact absurd h (by simp)
  · rename_i hnone
    split_ifs at h with hempty hok
    cases Except.ok.inj h
    cases input with
    | null => exact absurd rfl hempty
    | bool b => exact absurd hnone (by simp [unmarshalRawQuery])
    | num t => exact absurd hnone (by simp [unmarshalRawQuery])
    | str t => exact absurd hnone (by simp [unmarshalRawQuery])
    | seq items => exact absurd hnone (by simp [unmarshalRawQuery])
    | map entries =>
      simp only [unmarshalRawQuery]
      rcases hfold entries (RawQuery.zero, none) with h1 | ⟨kv, hmem, h1⟩
      · rw [h1]
        cases entries <;> simp [RawQuery.zero]
      · rw [h1]
        have h2 := List.sizeOf_lt_of_mem hmem
        have h3 : sizeOf kv.2 < sizeOf kv := by
          rcases kv with ⟨k, v⟩
          simp
        simp
        omega
end

/-- The function `SmartUnmarshalAll`. -/
def SmartUnmarshalAll {I : Type} (unmarshal : DynamicValue → Except GoError I)
    (input : DynamicValue) : List I × Option GoError :=
  handleInterfaces unmarshal input

/-! ## The target type of the tests (`unmarshal_test.go`) -/

/-- The struct `User` of `TestUnmarshal`. -/
structure User where
  Username : String
  Password : String
  ID : String
  Name : String

/-- The zero value of `User`. -/
def User.zero : User := ⟨"", "", "", ""⟩

/-- One object entry decoded into a `User`. -/
def User.setField (st : User × Option GoError) (kv : String × DynamicValue) :
    User × Option GoError :=
  let u := st.1
  if equalFold "username" kv.1 then
    let r := storeString "User" "username" u.Username kv.2
    ({ u with Username := r.1 }, saveError st.2 r.2)
  else if equalFold "password" kv.1 then
    let r := storeString "User" "password" u.Password kv.2
    ({ u with Password := r.1 }, saveError st.2 r.2)
  else if equalFold "id" kv.1 then
    let r := storeString "User" "id" u.ID kv.2
    ({ u with ID := r.1 }, saveError st.2 r.2)
  else if equalFold "name" kv.1 then
    let r := storeString "User" "name" u.Name kv.2
    ({ u with Name := r.1 }, saveError st.2 r.2)
  else st

/-- The call `json.Unmarshal(x, &i)` for `I = User`, into a zero `User`. -/
def unmarshalUser : DynamicValue → Except GoError User
  | .null => .ok User.zero
  | .map entries =>
    let r := entries.foldl User.setField (User.zero, none)
    match r.2 with
    | some err => .error err
    | none => .ok r.1
  | v => .error (.unmarshalTypeError (jsonKind v) "" "" "surrealtest_test.User")

/-- The call `json.Unmarshal(x, &i)` for `I = string`. -/
def unmarshalString : DynamicValue → Except GoError String
  | .null => .ok ""
  | .str s => .ok s
  | v => .error (.unmarshalTypeError (jsonKind v) "" "" "string")

/-! ## `helpers.go`: `checkQueryResponse` -/

/-- The struct `queryResponse`. -/
structure queryResponse where
  Status : String
  Time : String
  Detail : String

/-- The zero value of `queryResponse`. -/
def queryResponse.zero : queryResponse := ⟨"", "", ""⟩

/-- One object entry decoded into a `queryResponse`. -/
def queryResponse.setField (st : queryResponse × Option GoError) (kv : String × DynamicValue) :
    queryResponse × Option GoError :=
  let q := st.1
  if equalFold "status" kv.1 then
    let r := storeString "queryResponse" "status" q.Status kv.2
    ({ q with Status := r.1 }, saveError st.2 r.2)
  else if equalFold "time" kv.1 then
    let r := storeString "queryResponse" "time" q.Time kv.2
    ({ q with Time := r.1 }, saveError st.2 r.2)
  else if equalFold "detail" kv.1 then
    let r := storeString "queryResponse" "detail" q.Detail kv.2
    ({ q with Detail := r.1 }, saveError st.2 r.2)
  else st

/-- One array element decoded into a zero `queryResponse`: the element and the error of it. -/
def unmarshalQueryResponse : DynamicValue → queryResponse × Option GoError
  | .null => (queryResponse.zero, none)
  | .map entries => entries.foldl queryResponse.setField (queryResponse.zero, none)
  | v => (queryResponse.zero,
      some (.unmarshalTypeError (jsonKind v) "" "" "surrealtest.queryResponse"))

/-- The call `json.Unmarshal(jsonBytes, &responses)` into a nil `[]queryResponse`: the slice
afterwards and the error returned, the first one met. -/
def unmarshalResponses : DynamicValue → List queryResponse × Option GoError
  | .null => ([], none)
  | .seq items =>
    items.foldl
      (fun st v => (st.1 ++ [(unmarshalQueryResponse v).1],
        saveError st.2 (unmarshalQueryResponse v).2))
      ([], none)
  | v => ([], some (.unmarshalTypeError (jsonKind v) "" "" "[]surrealtest.queryResponse"))

/-- How `fmt` prints a `[]byte` under `%+v`. -/
def fmtBytes (bytes : List Nat) : String :=
  "[" ++ " ".intercalate (bytes.map toString) ++ "]"

/-- The function `isSlice`. -/
def isSlice : DynamicValue → Bool
  | .seq _ => true
  | _ => false

/-- The function `checkQueryResponse`. The argument `marshal` gives the bytes `json.Marshal`
writes, which only show in the message of the decoding error. A `DynamicValue` that is a slice
is a `[]interface{}`, so the type assertion after `isSlice` holds and `d` is `data`. -/
def checkQueryResponse (marshal : DynamicValue → List Nat) (data : DynamicValue) :
    Option GoError :=
  let d := if isSlice data then data else data
  let jsonBytes := marshal d
  let r := unmarshalResponses d
  match r.2 with
  | some err =>
    some (.wrapError
      ("failed unmarshaling jsonBytes '" ++ fmtBytes jsonBytes ++ "': " ++ err.Error) err)
  | none =>
    let errs := r.1.foldl (fun errs r => if r.Status ≠ "OK" then errs ++ [r.Detail] else errs) []
    if errs.length > 0 then
      some (.errorString ("failed to execute query:\n    " ++ "\n    ".intercalate errs))
    else
      none

/-! ## Vocabulary of the specification -/

/-- The values of the entries of a Mapping that make up its field `name`: those whose key
`encoding/json` stores into the struct field of that JSON name, in order. -/
def fieldValues (name : String) (entries : List (String × DynamicValue)) : List DynamicValue :=
  (entries.filter (fun kv => equalFold name kv.1)).map (fun kv => kv.2)

/-- A value that is a string. -/
def DynamicValue.IsString (v : DynamicValue) : Prop := ∃ s, v = .str s

/-- A value of the wrong type for a string field: a number, a boolean, a Mapping or a
Sequence. -/
def DynamicValue.IsWrongType : DynamicValue → Prop
  | .bool _ => True
  | .num _ => True
  | .seq _ => True
  | .map _ => True
  | _ => False

/-- A Scalar: a string, a number or a boolean. -/
def DynamicValue.IsScalar : DynamicValue → Prop
  | .bool _ => True
  | .num _ => True
  | .str _ => True
  | _ => False

/-- The text of the last of some values when that is a string, `old` otherwise. -/
def lastText (old : String) (vs : List DynamicValue) : String :=
  match vs.getLast? with
  | some (.str s) => s
  | _ => old

/-- The text of a string field of a Mapping: that of its last entry, the empty string when the
field is absent. -/
def fieldText (name : String) (entries : List (String × DynamicValue)) : String :=
  lastText "" (fieldValues name entries)

/-- The text of a string field of a value: `fieldText` for a Mapping, empty otherwise. -/
def DynamicValue.text (name : String) : DynamicValue → String
  | .map entries => fieldText name entries
  | _ => ""

/-- A Mapping whose `status`, `time` and `detail` fields, where present, are strings. -/
def DynamicValue.IsResponse : DynamicValue → Prop
  | .map entries =>
    (∀ v ∈ fieldValues "status" entries, v.IsString) ∧
    (∀ v ∈ fieldValues "time" entries, v.IsString) ∧
    (∀ v ∈ fieldValues "detail" entries, v.IsString)
  | _ => False

/-- A Mapping that is not an envelope: it has no `status` field or an empty one, and its
`time` and `detail` fields, if present, are strings. -/
def DynamicValue.IsRawMapping : DynamicValue → Prop
  | .map entries =>
    (∀ v ∈ fieldValues "status" entries, v = .str "") ∧
    (∀ v ∈ fieldValues "time" entries, v.IsString) ∧
    (∀ v ∈ fieldValues "detail" entries, v.IsString)
  | _ => False

/-- The Success envelope around a result, `{status:"OK", result:r}`. -/
def successEnvelope (r : DynamicValue) : DynamicValue :=
  .map [("result", r), ("status", .str "OK")]

/-- The failure envelope `{status:s, result:r}` with a text as result. -/
def failureEnvelope (s r : String) : DynamicValue :=
  .map [("result", .str r), ("status", .str s)]

/-- One string occurs inside another. -/
def Contains (msg part : String) : Prop := part.data <:+: msg.data

/-! ## Lemmas -/

theorem fieldValues_concat (name : String) (l : List (String × DynamicValue))
    (kv : String × DynamicValue) :
    fieldValues name (l ++ [kv]) =
      fieldValues name l ++ (if equalFold name kv.1 then [kv.2] else []) := by
  unfold fieldValues
  rw [List.filter_append, List.map_append]
  by_cases h : equalFold name kv.1 <;> simp [h, List.filter_cons]

theorem equalFold_exclusive {a b key : String} (hab : foldName a ≠ foldName b)
    (ha : equalFold a key = true) : equalFold b key = false := by
  unfold equalFold at *
  simp only [decide_eq_true_eq, decide_eq_false_iff_not] at *
  intro hb
  exact hab (ha.trans hb.symm)

theorem storeString_str (struct field old s : String) :
    storeString struct field old (.str s) = (s, none) := rfl

theorem saveError_none (saved : Option GoError) : saveError saved none = saved := by
  cases saved <;> rfl

/-- Decoding a Mapping whose string fields hold strings into a `RawQuery[any]`: no error, and
each field ends as its last entry. -/
theorem RawQuery_foldl_setField_strings (entries : List (String × DynamicValue))
    (st : RawQuery × Option GoError)
    (hs : ∀ v ∈ fieldValues "status" entries, v.IsString)
    (ht : ∀ v ∈ fieldValues "time" entries, v.IsString)
    (hd : ∀ v ∈ fieldValues "detail" entries, v.IsString) :
    (entries.foldl RawQuery.setField st).2 = st.2 ∧
    (entries.foldl RawQuery.setField st).1.Status
      = lastText st.1.Status (fieldValues "status" entries) ∧
    (entries.foldl RawQuery.setField st).1.Result
      = ((fieldValues "result" entries).getLast?).getD st.1.Result := by
  induction entries using List.reverseRecOn with
  | nil => simp [fieldValues, lastText]
  | append_singleton l kv ih =>
    rw [List.foldl_append, List.foldl_cons, List.foldl_nil]
    simp only [fieldValues_concat] at hs ht hd ⊢
    obtain ⟨ih1, ih2, ih3⟩ := ih
      (fun v hv => hs v (List.mem_append_left _ hv))
      (fun v hv => ht v (List.mem_append_left _ hv))
      (fun v hv => hd v (List.mem_append_left _ hv))
    generalize List.foldl RawQuery.setField st l = acc at ih1 ih2 ih3 ⊢
    unfold RawQuery.setField
    by_cases h1 : equalFold "status" kv.1 = true
    · obtain ⟨s, hv⟩ := hs kv.2 (by simp [h1])
      have h3 := equalFold_exclusive (b := "result") (by decide) h1
      simp [h1, h3, hv, storeString_str, saveError_none, ih1, ih3, lastText]
    · by_cases h2 : equalFold "time" kv.1 = true
      · obtain ⟨s, hv⟩ := ht kv.2 (by simp [h2])
        have h3 := equalFold_exclusive (b := "result") (by decide) h2
        simp [h1, h2, h3, hv, storeString_str, saveError_none, ih1, ih2, ih3]
      · by_cases h3 : equalFold "result" kv.1 = true
        · simp [h1, h2, h3, ih1, ih2]
        · by_cases h4 : equalFold "detail" kv.1 = true
          · obtain ⟨s, hv⟩ := hd kv.2 (by simp [h4])
            simp [h1, h2, h3, h4, hv, storeString_str, saveError_none, ih1, ih2, ih3]
          · simp [h1, h2, h3, h4, ih1, ih2, ih3]

section unfold
variable {I : Type} (unmarshal : DynamicValue → Except GoError I)

theorem handleInterfaces_map (entries : List (String × DynamicValue)) :
    handleInterfaces unmarshal (.map entries) = handleInput unmarshal (.map entries) := by
  rw [handleInterfaces]

theorem handleInterfaces_null :
    handleInterfaces unmarshal .null = handleInput unmarshal .null := by
  rw [handleInterfaces]

theorem handleInterfaces_str (s : String) :
    handleInterfaces unmarshal (.str s) = handleInput unmarshal (.str s) := by
  rw [handleInterfaces]

theorem handleInterfaces_num (s : String) :
    handleInterfaces unmarshal (.num s) = handleInput unmarshal (.num s) := by
  rw [handleInterfaces]

theorem handleInterfaces_bool (b : Bool) :
    handleInterfaces unmarshal (.bool b) = handleInput unmarshal (.bool b) := by
  rw [handleInterfaces]

theorem handleInput_of_ok (input unwrapped : DynamicValue)
    (h : handleAsRawQuery input = .ok unwrapped) :
    handleInput unmarshal input = handleInterfaces unmarshal unwrapped := by
  rw [handleInput]
  split
  · rename_i err h2
    rw [h] at h2
    exact absurd h2 (by simp)
  · rename_i u h2
    rw [h] at h2
    rw [Except.ok.inj h2]

theorem handleInput_of_error (input : DynamicValue) (err : GoError)
    (h : handleAsRawQuery input = .error err) :
    handleInput unmarshal input =
      if errorsIsNotRawQuery err then
        match handleAsData unmarshal input with
        | .error err => ([], some err)
        | .ok data => ([data], none)
      else ([], some err) := by
  rw [handleInput]
  split
  · rename_i err2 h2
    rw [h] at h2
    cases Except.error.inj h2
    by_cases hc : errorsIsNotRawQuery err <;> simp [hc]
  · rename_i u h2
    rw [h] at h2
    exact absurd h2 (by simp)

theorem handleInterfacesLoop_eq (inputs : List DynamicValue) (result : List I)
    (errs : List (Option GoError)) :
    handleInterfacesLoop unmarshal inputs result errs =
      (result ++ (inputs.map (fun v => (handleInterfaces unmarshal v).1)).flatten,
        errs ++ inputs.map (fun v => (handleInterfaces unmarshal v).2)) := by
  induction inputs generalizing result errs with
  | nil => rw [handleInterfacesLoop]; simp
  | cons v vs ih =>
    rw [handleInterfacesLoop, ih]
    simp

theorem errorsJoin_nil : errorsJoin [] = none := rfl

theorem handleInterfaces_seq (inputs : List DynamicValue) :
    handleInterfaces unmarshal (.seq inputs) =
      ((inputs.map (fun v => (handleInterfaces unmarshal v).1)).flatten,
        errorsJoin (inputs.map (fun v => (handleInterfaces unmarshal v).2))) := by
  rw [handleInterfaces]
  simp only [handleInterfacesLoop_eq, List.nil_append]
  cases inputs with
  | nil => simp [errorsJoin_nil]
  | cons v vs => simp

end unfold

/-- What `handleAsRawQuery` returns for a Mapping whose string fields hold strings. -/
theorem handleAsRawQuery_map (entries : List (String × DynamicValue))
    (hs : ∀ v ∈ fieldValues "status" entries, v.IsString)
    (ht : ∀ v ∈ fieldValues "time" entries, v.IsString)
    (hd : ∀ v ∈ fieldValues "detail" entries, v.IsString) :
    handleAsRawQuery (.map entries) =
      if fieldText "status" entries = "" then
        .error (.wrapError "not a RawQuery" .errNotRawQuery)
      else if fieldText "status" entries ≠ "OK" then
        .error (.errorString (fieldText "status" entries ++ ": "
          ++ fmtS (((fieldValues "result" entries).getLast?).getD .null)))
      else .ok (((fieldValues "result" entries).getLast?).getD .null) := by
  obtain ⟨h1, h2, h3⟩ := RawQuery_foldl_setField_strings entries (RawQuery.zero, none) hs ht hd
  simp only [RawQuery.zero] at h1 h2 h3
  unfold handleAsRawQuery unmarshalRawQuery
  simp only [h1, h2, h3, fieldText, RawQuery.zero, GoError.Error]

theorem lastText_singleton (old s : String) : lastText old [.str s] = s := rfl

theorem lastText_of_forall_empty (vs : List DynamicValue) (h : ∀ v ∈ vs, v = .str "") :
    lastText "" vs = "" := by
  unfold lastText
  cases hl : vs.getLast? with
  | none => rfl
  | some v =>
    have hv := h v (List.mem_of_getLast?_eq_some hl)
    subst hv
    rfl

theorem fieldValues_cons (name : String) (kv : String × DynamicValue)
    (l : List (String × DynamicValue)) :
    fieldValues name (kv :: l) =
      (if equalFold name kv.1 then [kv.2] else []) ++ fieldValues name l := by
  unfold fieldValues
  by_cases h : equalFold name kv.1 <;> simp [h, List.filter_cons]

/-- An error that `encoding/json` has saved stays the error of the decoding. -/
theorem RawQuery_foldl_setField_saved (entries : List (String × DynamicValue))
    (st : RawQuery × Option GoError) (e : GoError) (h : st.2 = some e) :
    (entries.foldl RawQuery.setField st).2 = some e := by
  induction entries generalizing st with
  | nil => exact h
  | cons kv rest ih =>
    rw [List.foldl_cons]
    apply ih
    unfold RawQuery.setField
    split_ifs <;> simp [h, saveError]

theorem storeString_wrongType (struct field old : String) (v : DynamicValue)
    (hw : v.IsWrongType) :
    (storeString struct field old v).2 =
      some (.unmarshalTypeError (jsonKind v) struct field "string") := by
  cases v <;> first | rfl | exact absurd hw (by simp [DynamicValue.IsWrongType])

theorem storeString_snd (struct field old : String) (v : DynamicValue) :
    (storeString struct field old v).2 = none ∨
      (storeString struct field old v).2 =
        some (.unmarshalTypeError (jsonKind v) struct field "string") := by
  cases v <;> first | exact Or.inl rfl | exact Or.inr rfl

/-- The error of decoding into a `RawQuery[any]` is never `errNotRawQuery`. -/
theorem RawQuery_foldl_setField_not_sentinel (entries : List (String × DynamicValue))
    (st : RawQuery × Option GoError)
    (h : ∀ e, st.2 = some e → errorsIsNotRawQuery e = false) :
    ∀ e, (entries.foldl RawQuery.setField st).2 = some e → errorsIsNotRawQuery e = false := by
  induction entries generalizing st with
  | nil => exact h
  | cons kv rest ih =>
    rw [List.foldl_cons]
    apply ih
    intro e he
    have key : ∀ (struct field old : String),
        saveError st.2 (storeString struct field old kv.2).2 = some e →
        errorsIsNotRawQuery e = false := by
      intro struct field old hsave
      cases hst : st.2 with
      | some e0 =>
        rw [hst] at hsave
        cases Option.some.inj hsave
        exact h _ hst
      | none =>
        rw [hst] at hsave
        rcases storeString_snd struct field old kv.2 with h0 | h0
        · rw [h0] at hsave
          exact absurd hsave (by simp [saveError])
        · rw [h0] at hsave
          cases Option.some.inj hsave
          rfl
    unfold RawQuery.setField at he
    split_ifs at he
    · exact key _ _ _ he
    · exact key _ _ _ he
    · exact h e he
    · exact key _ _ _ he
    · exact h e he

/-- A wrongly typed entry of a string field makes the decoding into a `RawQuery[any]` fail. -/
theorem RawQuery_foldl_setField_wrongType (entries : List (String × DynamicValue))
    (st : RawQuery × Option GoError) (name : String)
    (hname : name = "status" ∨ name = "time" ∨ name = "detail")
    (v : DynamicValue) (hv : v ∈ fieldValues name entries) (hw : v.IsWrongType) :
    ∃ e, (entries.foldl RawQuery.setField st).2 = some e := by
  induction entries generalizing st with
  | nil => simp [fieldValues] at hv
  | cons kv rest ih =>
    rw [List.foldl_cons]
    rw [fieldValues_cons] at hv
    rcases List.mem_append.1 hv with h1 | h1
    · by_cases hb : equalFold name kv.1 = true
      · simp only [hb, if_true, List.mem_singleton] at h1
        subst h1
        have hstep : ∃ e, (RawQuery.setField st kv).2 = some e := by
          have hsome : ∀ (struct field old : String),
              ∃ e, saveError st.2 (storeString struct field old kv.2).2 = some e := by
            intro struct field old
            rw [storeString_wrongType _ _ _ _ hw]
            cases st.2 <;> simp [saveError]
          unfold RawQuery.setField
          rcases hname with rfl | rfl | rfl
          · simp only [hb, if_true]
            exact hsome _ _ _
          · have h0 := equalFold_exclusive (b := "status") (by decide) hb
            simp only [hb, h0, if_true, Bool.false_eq_true, if_false]
            exact hsome _ _ _
          · have h0 := equalFold_exclusive (b := "status") (by decide) hb
            have h2 := equalFold_exclusive (b := "time") (by decide) hb
            have h3 := equalFold_exclusive (b := "result") (by decide) hb
            simp only [hb, h0, h2, h3, if_true, Bool.false_eq_true, if_false]
            exact hsome _ _ _
        obtain ⟨e, he⟩ := hstep
        exact ⟨e, RawQuery_foldl_setField_saved rest _ e he⟩
      · simp [hb] at h1
    · exact ih _ h1

theorem handleInterfaces_rawMapping {I : Type} (unmarshal : DynamicValue → Except GoError I)
    (v : DynamicValue) (hv : v.IsRawMapping) :
    handleInterfaces unmarshal v =
      match handleAsData unmarshal v with
      | .error err => ([], some err)
      | .ok data => ([data], none) := by
  cases v with
  | map entries =>
    obtain ⟨hs, ht, hd⟩ := hv
    have hs2 : ∀ v ∈ fieldValues "status" entries, v.IsString :=
      fun v hv => ⟨"", hs v hv⟩
    have h := handleAsRawQuery_map entries hs2 ht hd
    simp only [fieldText, lastText_of_forall_empty _ hs, if_true] at h
    rw [handleInterfaces_map, handleInput_of_error unmarshal _ _ h]
    rfl
  | null => exact absurd hv (by simp [DynamicValue.IsRawMapping])
  | bool b => exact absurd hv (by simp [DynamicValue.IsRawMapping])
  | num t => exact absurd hv (by simp [DynamicValue.IsRawMapping])
  | str t => exact absurd hv (by simp [DynamicValue.IsRawMapping])
  | seq items => exact absurd hv (by simp [DynamicValue.IsRawMapping])

theorem handleInterfaces_successEnvelope {I : Type}
    (unmarshal : DynamicValue → Except GoError I) (r : DynamicValue) :
    handleInterfaces unmarshal (successEnvelope r) = handleInterfaces unmarshal r := by
  unfold successEnvelope
  rw [handleInterfaces_map,
    handleInput_of_ok unmarshal (.map [("result", r), ("status", .str "OK")]) r rfl]

theorem handleInterfaces_failureEnvelope {I : Type}
    (unmarshal : DynamicValue → Except GoError I) (s r : String)
    (h1 : s ≠ "") (h2 : s ≠ "OK") :
    handleInterfaces unmarshal (failureEnvelope s r) =
      ([], some (.errorString (s ++ ": " ++ r))) := by
  have h : handleAsRawQuery (failureEnvelope s r) = .error (.errorString (s ++ ": " ++ r)) := by
    have h0 := handleAsRawQuery_map [("result", .str r), ("status", .str s)]
      (fun v hv => ⟨s, List.mem_singleton.1 hv⟩)
      (fun v hv => absurd hv (List.not_mem_nil v))
      (fun v hv => absurd hv (List.not_mem_nil v))
    have e1 : fieldText "status" [("result", .str r), ("status", .str s)] = s := rfl
    have e2 : fieldValues "result" [("result", .str r), ("status", .str s)] = [.str r] := rfl
    rw [e1, e2] at h0
    simpa [failureEnvelope, h1, h2, fmtS, fmtValue] using h0
  unfold failureEnvelope at h ⊢
  rw [handleInterfaces_map, handleInput_of_error unmarshal _ _ h]
  rfl

theorem errorsJoin_eq_none_iff (errs : List (Option GoError)) :
    errorsJoin errs = none ↔ ∀ e ∈ errs, e = none := by
  unfold errorsJoin
  constructor
  · intro h e he
    cases e with
    | none => rfl
    | some e0 =>
      have hmem : e0 ∈ errs.filterMap id := List.mem_filterMap.2 ⟨some e0, he, rfl⟩
      cases hl : errs.filterMap id with
      | nil => rw [hl] at hmem; exact absurd hmem (List.not_mem_nil e0)
      | cons a l => rw [hl] at h; exact absurd h (by simp)
  · intro h
    have hl : errs.filterMap id = [] := by
      rw [List.filterMap_eq_nil_iff]
      intro e he
      rw [h e he]
      rfl
    rw [hl]

theorem errorsJoin_of_ne_none (errs : List (Option GoError))
    (h : ∃ e ∈ errs, e ≠ none) :
    errorsJoin errs = some (.joinError (errs.filterMap id)) := by
  obtain ⟨e, he, hne⟩ := h
  unfold errorsJoin
  cases hl : errs.filterMap id with
  | nil =>
    have := (List.filterMap_eq_nil_iff.1 hl) e he
    cases e with
    | none => exact absurd rfl hne
    | some e0 => exact absurd this (by simp)
  | cons a l => rfl

theorem join_map_singleton {α β : Type} (l : List α) (f : α → β) :
    (l.map (fun a => [f a])).flatten = l.map f := by
  induction l with
  | nil => rfl
  | cons a as ih => simp [ih]

theorem getLast?_getD_of_forall_null (vs : List DynamicValue)
    (h : ∀ v ∈ vs, v = DynamicValue.null) : (vs.getLast?).getD .null = .null := by
  cases hl : vs.getLast? with
  | none => rfl
  | some v => exact h v (List.mem_of_getLast?_eq_some hl)

/-- Decoding a Mapping whose string fields hold strings into a `queryResponse`: no error, and
each field ends as its last entry. -/
theorem queryResponse_foldl_setField_strings (entries : List (String × DynamicValue))
    (st : queryResponse × Option GoError)
    (hs : ∀ v ∈ fieldValues "status" entries, v.IsString)
    (ht : ∀ v ∈ fieldValues "time" entries, v.IsString)
    (hd : ∀ v ∈ fieldValues "detail" entries, v.IsString) :
    (entries.foldl queryResponse.setField st).2 = st.2 ∧
    (entries.foldl queryResponse.setField st).1.Status
      = lastText st.1.Status (fieldValues "status" entries) ∧
    (entries.foldl queryResponse.setField st).1.Detail
      = lastText st.1.Detail (fieldValues "detail" entries) := by
  induction entries using List.reverseRecOn with
  | nil => simp [fieldValues, lastText]
  | append_singleton l kv ih =>
    rw [List.foldl_append, List.foldl_cons, List.foldl_nil]
    simp only [fieldValues_concat] at hs ht hd ⊢
    obtain ⟨ih1, ih2, ih3⟩ := ih
      (fun v hv => hs v (List.mem_append_left _ hv))
      (fun v hv => ht v (List.mem_append_left _ hv))
      (fun v hv => hd v (List.mem_append_left _ hv))
    generalize List.foldl queryResponse.setField st l = acc at ih1 ih2 ih3 ⊢
    unfold queryResponse.setField
    by_cases h1 : equalFold "status" kv.1 = true
    · obtain ⟨s, hv⟩ := hs kv.2 (by simp [h1])
      have h3 := equalFold_exclusive (b := "detail") (by decide) h1
      simp [h1, h3, hv, storeString_str, saveError_none, ih1, ih3, lastText]
    · by_cases h2 : equalFold "time" kv.1 = true
      · obtain ⟨s, hv⟩ := ht kv.2 (by simp [h2])
        have h3 := equalFold_exclusive (b := "detail") (by decide) h2
        simp [h1, h2, h3, hv, storeString_str, saveError_none, ih1, ih2, ih3]
      · by_cases h4 : equalFold "detail" kv.1 = true
        · obtain ⟨s, hv⟩ := hd kv.2 (by simp [h4])
          simp [h1, h2, h4, hv, storeString_str, saveError_none, ih1, ih2, lastText]
        · simp [h1, h2, h4, ih1, ih2, ih3]

theorem unmarshalQueryResponse_of_isResponse (v : DynamicValue) (hv : v.IsResponse) :
    (unmarshalQueryResponse v).2 = none ∧
    (unmarshalQueryResponse v).1.Status = v.text "status" ∧
    (unmarshalQueryResponse v).1.Detail = v.text "detail" := by
  cases v with
  | map entries =>
    obtain ⟨hs, ht, hd⟩ := hv
    exact queryResponse_foldl_setField_strings entries (queryResponse.zero, none) hs ht hd
  | null => exact absurd hv (by simp [DynamicValue.IsResponse])
  | bool b => exact absurd hv (by simp [DynamicValue.IsResponse])
  | num t => exact absurd hv (by simp [DynamicValue.IsResponse])
  | str t => exact absurd hv (by simp [DynamicValue.IsResponse])
  | seq items => exact absurd hv (by simp [DynamicValue.IsResponse])

theorem unmarshalResponses_foldl (items : List DynamicValue) (acc : List queryResponse)
    (h : ∀ v ∈ items, v.IsResponse) :
    items.foldl
      (fun st v => (st.1 ++ [(unmarshalQueryResponse v).1],
        saveError st.2 (unmarshalQueryResponse v).2))
      (acc, none)
    = (acc ++ items.map (fun v => (unmarshalQueryResponse v).1), none) := by
  induction items generalizing acc with
  | nil => simp
  | cons v vs ih =>
    rw [List.foldl_cons]
    have hv := (unmarshalQueryResponse_of_isResponse v (h v (List.mem_cons_self _ _))).1
    have hstep : saveError (acc, (none : Option GoError)).2 (unmarshalQueryResponse v).2
        = none := by
      rw [hv]
      rfl
    simp only [hstep]
    rw [ih _ (fun w hw => h w (List.mem_cons_of_mem _ hw))]
    simp

theorem errs_foldl (rs : List queryResponse) (acc : List String) :
    rs.foldl (fun errs r => if r.Status ≠ "OK" then errs ++ [r.Detail] else errs) acc
      = acc ++ (rs.filter (fun r => decide (r.Status ≠ "OK"))).map (fun r => r.Detail) := by
  induction rs generalizing acc with
  | nil => simp
  | cons r rs ih =>
    rw [List.foldl_cons, ih]
    by_cases h : r.Status = "OK" <;> simp [h, List.filter_cons]

/-- The details `checkQueryResponse` collects from a Sequence of well-typed responses. -/
theorem checkQueryResponse_eq (marshal : DynamicValue → List Nat) (items : List DynamicValue)
    (h : ∀ v ∈ items, v.IsResponse) :
    checkQueryResponse marshal (.seq items) =
      if ((items.filter (fun v => decide (v.text "status" ≠ "OK"))).map
          (fun v => v.text "detail")).length > 0 then
        some (.errorString ("failed to execute query:\n    " ++ "\n    ".intercalate
          ((items.filter (fun v => decide (v.text "status" ≠ "OK"))).map
            (fun v => v.text "detail"))))
      else none := by
  have e : ((items.map (fun v => (unmarshalQueryResponse v).1)).filter
        (fun r => decide (r.Status ≠ "OK"))).map (fun r => r.Detail)
      = (items.filter (fun v => decide (v.text "status" ≠ "OK"))).map
          (fun v => v.text "detail") := by
    induction items with
    | nil => rfl
    | cons v vs ih =>
      obtain ⟨_, h2, h3⟩ := unmarshalQueryResponse_of_isResponse v (h v (List.mem_cons_self _ _))
      have ih2 := ih (fun w hw => h w (List.mem_cons_of_mem _ hw))
      by_cases hc : v.text "status" = "OK"
      · simp only [List.map_cons, List.filter_cons, h2, hc, ne_eq, not_true_eq_false,
          decide_False, Bool.false_eq_true, if_false]
        exact ih2
      · simp only [List.map_cons, List.filter_cons, h2, hc, ne_eq, not_false_eq_true,
          decide_True, if_true, h3, List.cons.injEq, true_and]
        exact ih2
  unfold checkQueryResponse
  simp only [isSlice, if_true, unmarshalResponses, unmarshalResponses_foldl items [] h,
    List.nil_append, errs_foldl, e]

/-! ## The claims of the specification -/

/-- C1. Envelope transparency: a Mapping whose status is "OK" and whose result is `r` (its time
and detail fields, if present, being strings) decodes to exactly the pair that `r` decodes to,
for every `r` and every target type; and `{status:"OK", result:[{name:"John"}]}` decodes to
the one user named John with no error. -/
theorem SmartUnmarshalAll_envelope_transparent {I : Type}
    (unmarshal : DynamicValue → Except GoError I)
    (entries : List (String × DynamicValue)) (r : DynamicValue)
    (hstatus : fieldValues "status" entries = [.str "OK"])
    (hresult : fieldValues "result" entries = [r])
    (htime : ∀ v ∈ fieldValues "time" entries, v.IsString)
    (hdetail : ∀ v ∈ fieldValues "detail" entries, v.IsString) :
    SmartUnmarshalAll unmarshal (.map entries) = SmartUnmarshalAll unmarshal r ∧
    SmartUnmarshalAll unmarshalUser
        (.map [("result", .seq [.map [("name", .str "John")]]), ("status", .str "OK")])
      = ([⟨"", "", "", "John"⟩], none) := by
  constructor
  · have hs : ∀ v ∈ fieldValues "status" entries, v.IsString := by
      rw [hstatus]
      intro v hv
      exact ⟨"OK", List.mem_singleton.1 hv⟩
    have h := handleAsRawQuery_map entries hs htime hdetail
    simp only [fieldText, hstatus, hresult, lastText_singleton] at h
    unfold SmartUnmarshalAll
    rw [handleInterfaces_map, handleInput_of_ok unmarshal _ r h]
  · unfold SmartUnmarshalAll
    rw [handleInterfaces_map,
      handleInput_of_ok unmarshalUser
        (.map [("result", .seq [.map [("name", .str "John")]]), ("status", .str "OK")])
        (.seq [.map [("name", .str "John")]]) rfl,
      handleInterfaces_seq]
    simp only [List.map_cons, List.map_nil]
    rw [handleInterfaces_map,
      handleInput_of_error unmarshalUser (.map [("name", .str "John")])
        (.wrapError "not a RawQuery" .errNotRawQuery) rfl]
    rfl

/-- C1, at the envelope `{status:"OK", time:"1ms", result:{name:"John"}}`. -/
theorem SmartUnmarshalAll_envelope_transparent_witness :
    SmartUnmarshalAll unmarshalUser
        (.map [("result", .map [("name", .str "John")]), ("status", .str "OK"),
          ("time", .str "1ms")])
      = SmartUnmarshalAll unmarshalUser (.map [("name", .str "John")]) :=
  (SmartUnmarshalAll_envelope_transparent unmarshalUser
    [("result", .map [("name", .str "John")]), ("status", .str "OK"), ("time", .str "1ms")]
    (.map [("name", .str "John")]) rfl rfl
    (by intro v hv; exact ⟨"1ms", List.mem_singleton.1 hv⟩)
    (by intro v hv; exact absurd hv (List.not_mem_nil v))).1

/-- C2. Order-preserving concatenation: the records of a Sequence are the records of its
elements, concatenated in input order, every element being decoded; an empty Sequence gives no
records; and a Sequence of Success envelopes each wrapping one record, a Mapping that is not an
envelope and converts to that record, gives those records in input order with no error. -/
theorem SmartUnmarshalAll_seq_concat {I : Type} (unmarshal : DynamicValue → Except GoError I)
    (vs : List DynamicValue) (rs : List (DynamicValue × I))
    (hrs : ∀ p ∈ rs, p.1.IsRawMapping ∧ unmarshal p.1 = .ok p.2) :
    (SmartUnmarshalAll unmarshal (.seq vs)).1
      = (vs.map (fun v => (SmartUnmarshalAll unmarshal v).1)).flatten ∧
    (SmartUnmarshalAll unmarshal (.seq [])).1 = [] ∧
    SmartUnmarshalAll unmarshal (.seq (rs.map (fun p => successEnvelope p.1)))
      = (rs.map (fun p => p.2), none) := by
  unfold SmartUnmarshalAll
  refine ⟨by rw [handleInterfaces_seq], by rw [handleInterfaces_seq]; rfl, ?_⟩
  have hone : ∀ p ∈ rs, handleInterfaces unmarshal (successEnvelope p.1) = ([p.2], none) := by
    intro p hp
    obtain ⟨h1, h2⟩ := hrs p hp
    rw [handleInterfaces_successEnvelope, handleInterfaces_rawMapping unmarshal _ h1]
    unfold handleAsData
    rw [h2]
  rw [handleInterfaces_seq, List.map_map, List.map_map]
  have e1 : rs.map ((fun v => (handleInterfaces unmarshal v).1) ∘ fun p => successEnvelope p.1)
      = rs.map (fun p => [p.2]) := by
    apply List.map_congr_left
    intro p hp
    simp [hone p hp]
  have e2 : rs.map ((fun v => (handleInterfaces unmarshal v).2) ∘ fun p => successEnvelope p.1)
      = rs.map (fun _ => none) := by
    apply List.map_congr_left
    intro p hp
    simp [hone p hp]
  rw [e1, e2]
  congr 1
  · exact join_map_singleton rs (fun p => p.2)
  · rw [errorsJoin_eq_none_iff]
    intro e he
    obtain ⟨_, _, h⟩ := List.mem_map.1 he
    exact h.symm

/-- C2, at the elements `{status:"OK", result:{name:"J"}}`, `{status:"ERR", result:"boom"}`
and at two Success envelopes wrapping the users J and Jo. -/
theorem SmartUnmarshalAll_seq_concat_witness :
    (SmartUnmarshalAll unmarshalUser
        (.seq [failureEnvelope "ERR" "boom", successEnvelope (.map [("name", .str "J")])])).1
      = ([failureEnvelope "ERR" "boom", successEnvelope (.map [("name", .str "J")])].map
          (fun v => (SmartUnmarshalAll unmarshalUser v).1)).flatten ∧
    SmartUnmarshalAll unmarshalUser
        (.seq [successEnvelope (.map [("name", .str "J")]),
          successEnvelope (.map [("name", .str "Jo")])])
      = ([⟨"", "", "", "J"⟩, ⟨"", "", "", "Jo"⟩], none) :=
  have h := SmartUnmarshalAll_seq_concat unmarshalUser
    [failureEnvelope "ERR" "boom", successEnvelope (.map [("name", .str "J")])]
    [(.map [("name", .str "J")], ⟨"", "", "", "J"⟩),
      (.map [("name", .str "Jo")], ⟨"", "", "", "Jo"⟩)]
    (by
      intro p hp
      simp only [List.mem_cons, List.mem_singleton, List.not_mem_nil, or_false] at hp
      rcases hp with rfl | rfl
      · exact ⟨⟨fun v hv => absurd hv (List.not_mem_nil v),
          fun v hv => absurd hv (List.not_mem_nil v),
          fun v hv => absurd hv (List.not_mem_nil v)⟩, rfl⟩
      · exact ⟨⟨fun v hv => absurd hv (List.not_mem_nil v),
          fun v hv => absurd hv (List.not_mem_nil v),
          fun v hv => absurd hv (List.not_mem_nil v)⟩, rfl⟩)
  ⟨h.1, h.2.2⟩

/-- C3. Error aggregation without short-circuit: the error of a Sequence is none exactly when
every element decoded with no error (so for an empty Sequence too); otherwise it is one joined
error holding the error of every failing element, in element order, next to the records of the
elements, and for `[Success(X), {status:"ERR", result:"boom"}]` the records are those of `X`
and the message of the joined error contains "boom". -/
theorem SmartUnmarshalAll_seq_errors {I : Type} (unmarshal : DynamicValue → Except GoError I)
    (vs : List DynamicValue) (x : DynamicValue) :
    ((SmartUnmarshalAll unmarshal (.seq vs)).2 = none
      ↔ ∀ v ∈ vs, (SmartUnmarshalAll unmarshal v).2 = none) ∧
    ((∃ v ∈ vs, (SmartUnmarshalAll unmarshal v).2 ≠ none) →
      (SmartUnmarshalAll unmarshal (.seq vs)).2
        = some (.joinError (vs.filterMap (fun v => (SmartUnmarshalAll unmarshal v).2)))) ∧
    (SmartUnmarshalAll unmarshal (.seq vs)).1
      = (vs.map (fun v => (SmartUnmarshalAll unmarshal v).1)).flatten ∧
    (SmartUnmarshalAll unmarshal (.seq [])).2 = none ∧
    (SmartUnmarshalAll unmarshal (.seq [successEnvelope x, failureEnvelope "ERR" "boom"])).1
      = (SmartUnmarshalAll unmarshal x).1 ∧
    ∃ e, (SmartUnmarshalAll unmarshal
        (.seq [successEnvelope x, failureEnvelope "ERR" "boom"])).2 = some e ∧
      Contains e.Error "boom" := by
  unfold SmartUnmarshalAll
  refine ⟨?_, ?_, by rw [handleInterfaces_seq], by rw [handleInterfaces_seq]; rfl, ?_, ?_⟩
  · rw [handleInterfaces_seq]
    simp only [errorsJoin_eq_none_iff, List.mem_map, forall_exists_index, and_imp,
      forall_apply_eq_imp_iff₂]
  · rintro ⟨v, hv, hne⟩
    rw [handleInterfaces_seq]
    simp only
    rw [errorsJoin_of_ne_none _ ⟨_, List.mem_map.2 ⟨v, hv, rfl⟩, hne⟩, List.filterMap_map]
    rfl
  · rw [handleInterfaces_seq]
    simp [handleInterfaces_successEnvelope,
      handleInterfaces_failureEnvelope unmarshal "ERR" "boom" (by decide) (by decide)]
  · rw [handleInterfaces_seq]
    simp only [List.map_cons, List.map_nil, handleInterfaces_successEnvelope,
      handleInterfaces_failureEnvelope unmarshal "ERR" "boom" (by decide) (by decide)]
    cases (handleInterfaces unmarshal x).2 with
    | none =>
      exact ⟨_, rfl, ⟨"ERR: ".data, [], rfl⟩⟩
    | some e0 =>
      refine ⟨_, rfl, ?_⟩
      show "boom".data <:+: (e0.Error ++ "\n" ++ "ERR: boom").data
      exact ⟨e0.Error.data ++ "\nERR: ".data, [], by simp [String.data_append]⟩

/-- C4. A failure envelope never yields records: a Mapping whose status is a non-empty string
`s` other than "OK" (its time and detail fields, if present, being strings) decodes to no
records and an error, whatever the target type and its conversion; when its result is a
string `r`, the message of the error is exactly `s: r`. -/
theorem SmartUnmarshalAll_failure_envelope {I : Type}
    (unmarshal : DynamicValue → Except GoError I)
    (entries : List (String × DynamicValue)) (s : String)
    (hstatus : fieldValues "status" entries = [.str s])
    (hne : s ≠ "") (hnok : s ≠ "OK")
    (htime : ∀ v ∈ fieldValues "time" entries, v.IsString)
    (hdetail : ∀ v ∈ fieldValues "detail" entries, v.IsString) :
    (∃ e, SmartUnmarshalAll unmarshal (.map entries) = ([], some e)) ∧
    ∀ r, fieldValues "result" entries = [.str r] →
      ∃ e, SmartUnmarshalAll unmarshal (.map entries) = ([], some e) ∧
        e.Error = s ++ ": " ++ r := by
  have hs : ∀ v ∈ fieldValues "status" entries, v.IsString := by
    rw [hstatus]
    intro v hv
    exact ⟨s, List.mem_singleton.1 hv⟩
  have h := handleAsRawQuery_map entries hs htime hdetail
  simp only [fieldText, hstatus, lastText_singleton, hne, hnok, if_false, ne_eq,
    not_false_eq_true, if_true] at h
  unfold SmartUnmarshalAll
  rw [handleInterfaces_map, handleInput_of_error unmarshal _ _ h]
  refine ⟨⟨_, rfl⟩, ?_⟩
  intro r hr
  refine ⟨_, rfl, ?_⟩
  rw [hr]
  rfl

/-- C4, at the envelope `{status:"ERR", result:"boom"}`. -/
theorem SmartUnmarshalAll_failure_envelope_witness :
    ∃ e, SmartUnmarshalAll unmarshalUser (.map [("result", .str "boom"), ("status", .str "ERR")])
        = ([], some e) ∧ e.Error = "ERR" ++ ": " ++ "boom" :=
  (SmartUnmarshalAll_failure_envelope unmarshalUser
    [("result", .str "boom"), ("status", .str "ERR")] "ERR" rfl (by decide) (by decide)
    (fun v hv => absurd hv (List.not_mem_nil v))
    (fun v hv => absurd hv (List.not_mem_nil v))).2 "boom" rfl

/-- C5, on the code: the envelope `{status:"ERR", detail:"Database record already exists"}`
decodes to no records and an error whose message is `ERR: %!s(<nil>)`, which does not contain
the detail text. -/
theorem SmartUnmarshalAll_failure_detail_dropped :
    ∃ e, SmartUnmarshalAll unmarshalUser
        (.map [("detail", .str "Database record already exists"), ("status", .str "ERR")])
        = ([], some e) ∧
      e.Error = "ERR: %!s(<nil>)" ∧
      ¬ Contains e.Error "Database record already exists" := by
  refine ⟨.errorString "ERR: %!s(<nil>)", ?_, rfl, ?_⟩
  · unfold SmartUnmarshalAll
    rw [handleInterfaces_map,
      handleInput_of_error unmarshalUser
        (.map [("detail", .str "Database record already exists"), ("status", .str "ERR")])
        (.errorString "ERR: %!s(<nil>)") rfl]
    rfl
  · intro h
    have hlen := List.IsInfix.length_le h
    exact absurd hlen (by decide)

/-- C6. A Mapping that is not an envelope is decoded as raw payload: it decodes to exactly
what `handleAsData` gives for it, one record and no error when the conversion succeeds, no
records and the conversion error when it fails; and `{name:"Jo"}` decodes to the one user
named Jo with no error. -/
theorem SmartUnmarshalAll_raw_mapping {I : Type} (unmarshal : DynamicValue → Except GoError I)
    (v : DynamicValue) (hv : v.IsRawMapping) :
    SmartUnmarshalAll unmarshal v =
      (match handleAsData unmarshal v with
        | .ok t => ([t], none)
        | .error err => ([], some err)) ∧
    SmartUnmarshalAll unmarshalUser (.map [("name", .str "Jo")])
      = ([⟨"", "", "", "Jo"⟩], none) := by
  unfold SmartUnmarshalAll
  constructor
  · rw [handleInterfaces_rawMapping unmarshal v hv]
    cases handleAsData unmarshal v <;> rfl
  · rw [handleInterfaces_map,
      handleInput_of_error unmarshalUser (.map [("name", .str "Jo")])
        (.wrapError "not a RawQuery" .errNotRawQuery) rfl]
    rfl

/-- C6, at the Mapping `{id:"user:jo", status:""}`. -/
theorem SmartUnmarshalAll_raw_mapping_witness :
    SmartUnmarshalAll unmarshalUser (.map [("id", .str "user:jo"), ("status", .str "")])
      = ([⟨"", "", "user:jo", ""⟩], none) :=
  (SmartUnmarshalAll_raw_mapping unmarshalUser
    (.map [("id", .str "user:jo"), ("status", .str "")])
    ⟨fun _ hv => List.mem_singleton.1 hv, fun v hv => absurd hv (List.not_mem_nil v),
      fun v hv => absurd hv (List.not_mem_nil v)⟩).1

/-- C7, on the code: the envelope `{status:"OK"}`, with no result, decodes to one record, the
zero `User`, and not to an empty record sequence. -/
theorem SmartUnmarshalAll_empty_result_counterexample :
    SmartUnmarshalAll unmarshalUser (.map [("status", .str "OK")]) = ([User.zero], none) ∧
    SmartUnmarshalAll unmarshalUser (.map [("status", .str "OK")]) ≠ ([], none) := by
  have h : SmartUnmarshalAll unmarshalUser (.map [("status", .str "OK")])
      = ([User.zero], none) := by
    unfold SmartUnmarshalAll
    rw [handleInterfaces_map,
      handleInput_of_ok unmarshalUser (.map [("status", .str "OK")]) .null rfl,
      handleInterfaces_null,
      handleInput_of_error unmarshalUser .null (.wrapError "not a RawQuery" .errNotRawQuery) rfl]
    rfl
  refine ⟨h, ?_⟩
  rw [h]
  intro hc
  exact absurd (congrArg (fun p => p.1.length) hc) (by decide)

/-- C7, as amended. A Success envelope with an empty result decodes as a null payload: a
Mapping whose status is "OK" and whose result is null or absent (its time and detail fields, if
present, being strings) decodes to what `handleAsData` gives for null, one record and no error
when that conversion succeeds, no records and the conversion error when it fails. -/
theorem SmartUnmarshalAll_empty_result {I : Type} (unmarshal : DynamicValue → Except GoError I)
    (entries : List (String × DynamicValue))
    (hstatus : fieldValues "status" entries = [.str "OK"])
    (hresult : ∀ v ∈ fieldValues "result" entries, v = .null)
    (htime : ∀ v ∈ fieldValues "time" entries, v.IsString)
    (hdetail : ∀ v ∈ fieldValues "detail" entries, v.IsString) :
    SmartUnmarshalAll unmarshal (.map entries) =
      match handleAsData unmarshal .null with
      | .ok t => ([t], none)
      | .error err => ([], some err) := by
  have hs : ∀ v ∈ fieldValues "status" entries, v.IsString := by
    rw [hstatus]
    intro v hv
    exact ⟨"OK", List.mem_singleton.1 hv⟩
  have h := handleAsRawQuery_map entries hs htime hdetail
  simp only [fieldText, hstatus, lastText_singleton,
    getLast?_getD_of_forall_null _ hresult] at h
  unfold SmartUnmarshalAll
  rw [handleInterfaces_map, handleInput_of_ok unmarshal _ .null h, handleInterfaces_null,
    handleInput_of_error unmarshal .null (.wrapError "not a RawQuery" .errNotRawQuery) rfl]
  cases handleAsData unmarshal .null <;> rfl

/-- C7, as amended, at the envelope `{result:null, status:"OK"}`. -/
theorem SmartUnmarshalAll_empty_result_witness :
    SmartUnmarshalAll unmarshalUser (.map [("result", .null), ("status", .str "OK")])
      = ([User.zero], none) :=
  SmartUnmarshalAll_empty_result unmarshalUser [("result", .null), ("status", .str "OK")]
    rfl (fun _ hv => List.mem_singleton.1 hv)
    (fun v hv => absurd hv (List.not_mem_nil v))
    (fun v hv => absurd hv (List.not_mem_nil v))

/-- C8. A malformed envelope is a hard error: a Mapping in which the status, time or detail
field has an entry of the wrong type (a number, a boolean, a Mapping or a Sequence) decodes to
no records and an error that is not `errNotRawQuery`, whatever the target type; there is no
fall back to the conversion of the Mapping, even when that conversion succeeds. -/
theorem SmartUnmarshalAll_malformed_envelope {I : Type}
    (unmarshal : DynamicValue → Except GoError I)
    (entries : List (String × DynamicValue)) (name : String)
    (hname : name = "status" ∨ name = "time" ∨ name = "detail")
    (v : DynamicValue) (hv : v ∈ fieldValues name entries) (hw : v.IsWrongType) :
    (∃ e, SmartUnmarshalAll unmarshal (.map entries) = ([], some e) ∧
      errorsIsNotRawQuery e = false) ∧
    ∀ t, handleAsData unmarshal (.map entries) = .ok t →
      SmartUnmarshalAll unmarshal (.map entries) ≠ ([t], none) := by
  obtain ⟨e, he⟩ :=
    RawQuery_foldl_setField_wrongType entries (RawQuery.zero, none) name hname v hv hw
  have hnot := RawQuery_foldl_setField_not_sentinel entries (RawQuery.zero, none)
    (fun e h => absurd h (by simp)) e he
  have h : handleAsRawQuery (.map entries) =
      .error (.wrapError ("failed to unmarshal to RawQuery: " ++ e.Error) e) := by
    unfold handleAsRawQuery unmarshalRawQuery
    simp only [he]
  have hres : SmartUnmarshalAll unmarshal (.map entries) =
      ([], some (.wrapError ("failed to unmarshal to RawQuery: " ++ e.Error) e)) := by
    unfold SmartUnmarshalAll
    rw [handleInterfaces_map, handleInput_of_error unmarshal _ _ h]
    simp [errorsIsNotRawQuery, hnot]
  refine ⟨⟨_, hres, ?_⟩, ?_⟩
  · simpa [errorsIsNotRawQuery] using hnot
  · intro t _ hc
    rw [hres] at hc
    exact absurd (congrArg (fun p => p.1.length) hc) (by simp)

/-- C8, at the Mapping `{name:"Jo", status:5}`, which converts to the user named Jo. -/
theorem SmartUnmarshalAll_malformed_envelope_witness :
    ∃ e, SmartUnmarshalAll unmarshalUser (.map [("name", .str "Jo"), ("status", .num "5")])
        = ([], some e) ∧ errorsIsNotRawQuery e = false :=
  (SmartUnmarshalAll_malformed_envelope unmarshalUser
    [("name", .str "Jo"), ("status", .num "5")] "status" (Or.inl rfl) (.num "5")
    (List.mem_singleton.2 rfl) trivial).1

/-- C9, on the code: the string "abc" with target type `string` decodes to no records and the
error of reading it as a `RawQuery`, although its conversion to `string` succeeds; and every
Scalar decodes to no records and an error, whatever the target type and its conversion. -/
theorem SmartUnmarshalAll_scalar_string_fails :
    SmartUnmarshalAll unmarshalString (.str "abc") =
      ([], some (.wrapError
        ("failed to unmarshal to RawQuery: json: cannot unmarshal string into Go value of type "
          ++ "surrealtest.RawQuery[interface \x7b\x7d]")
        (.unmarshalTypeError "string" "" "" "surrealtest.RawQuery[interface \x7b\x7d]"))) ∧
    handleAsData unmarshalString (.str "abc") = .ok "abc" ∧
    ∀ (I : Type) (unmarshal : DynamicValue → Except GoError I) (v : DynamicValue),
      v.IsScalar → ∃ e, SmartUnmarshalAll unmarshal v = ([], some e) := by
  refine ⟨?_, rfl, ?_⟩
  · unfold SmartUnmarshalAll
    rw [handleInterfaces_str, handleInput_of_error unmarshalString (.str "abc") _ rfl]
    rfl
  · intro I unmarshal v hv
    unfold SmartUnmarshalAll
    cases v with
    | bool b =>
      rw [handleInterfaces_bool, handleInput_of_error unmarshal (.bool b) _ rfl]
      exact ⟨_, rfl⟩
    | num t =>
      rw [handleInterfaces_num, handleInput_of_error unmarshal (.num t) _ rfl]
      exact ⟨_, rfl⟩
    | str t =>
      rw [handleInterfaces_str, handleInput_of_error unmarshal (.str t) _ rfl]
      exact ⟨_, rfl⟩
    | null => exact absurd hv (by simp [DynamicValue.IsScalar])
    | seq items => exact absurd hv (by simp [DynamicValue.IsScalar])
    | map entries => exact absurd hv (by simp [DynamicValue.IsScalar])

/-- C10. `checkQueryResponse` reports every failed statement: for a Sequence of Mappings whose
status, time and detail fields, where present, are strings, it returns no error exactly when
the status of every element is "OK"; otherwise it returns one error whose message is
"failed to execute query:" followed by the detail text of every element whose status is not
"OK", all of them, in input order, each on a line of its own. -/
theorem checkQueryResponse_reports_every_failure (marshal : DynamicValue → List Nat)
    (items : List DynamicValue) (h : ∀ v ∈ items, v.IsResponse) :
    (checkQueryResponse marshal (.seq items) = none
      ↔ ∀ v ∈ items, v.text "status" = "OK") ∧
    ((∃ v ∈ items, v.text "status" ≠ "OK") →
      ∃ e, checkQueryResponse marshal (.seq items) = some e ∧
        e.Error = "failed to execute query:\n    " ++ "\n    ".intercalate
          ((items.filter (fun v => decide (v.text "status" ≠ "OK"))).map
            (fun v => v.text "detail"))) := by
  rw [checkQueryResponse_eq marshal items h]
  have hlen : ((items.filter (fun v => decide (v.text "status" ≠ "OK"))).map
        (fun v => v.text "detail")).length > 0 ↔ ∃ v ∈ items, v.text "status" ≠ "OK" := by
    rw [List.length_map, gt_iff_lt, List.length_pos_iff_exists_mem]
    simp only [List.mem_filter, decide_eq_true_eq]
  constructor
  · constructor
    · intro hnone v hv
      by_contra hne
      rw [if_pos (hlen.2 ⟨v, hv, hne⟩)] at hnone
      exact absurd hnone (by simp)
    · intro hall
      rw [if_neg]
      intro hpos
      obtain ⟨v, hv, hne⟩ := hlen.1 hpos
      exact hne (hall v hv)
  · intro hex
    rw [if_pos (hlen.2 hex)]
    exact ⟨_, rfl, rfl⟩

/-- C10, at the responses `{status:"OK", time:"1ms"}`, `{detail:"boom", status:"ERR"}` and
`{detail:"bang", status:"ERR"}`. -/
theorem checkQueryResponse_reports_every_failure_witness :
    ∃ e, checkQueryResponse (fun _ => [])
        (.seq [.map [("status", .str "OK"), ("time", .str "1ms")],
          .map [("detail", .str "boom"), ("status", .str "ERR")],
          .map [("detail", .str "bang"), ("status", .str "ERR")]]) = some e ∧
      e.Error = "failed to execute query:\n    boom\n    bang" :=
  (checkQueryResponse_reports_every_failure (fun _ => [])
    [.map [("status", .str "OK"), ("time", .str "1ms")],
      .map [("detail", .str "boom"), ("status", .str "ERR")],
      .map [("detail", .str "bang"), ("status", .str "ERR")]]
    (by
      intro v hv
      simp only [List.mem_cons, List.mem_singleton, List.not_mem_nil, or_false] at hv
      rcases hv with rfl | rfl | rfl
      · exact ⟨fun _ h => ⟨_, List.mem_singleton.1 h⟩, fun _ h => ⟨_, List.mem_singleton.1 h⟩,
          fun w h => absurd h (List.not_mem_nil w)⟩
      · exact ⟨fun _ h => ⟨_, List.mem_singleton.1 h⟩, fun w h => absurd h (List.not_mem_nil w),
          fun _ h => ⟨_, List.mem_singleton.1 h⟩⟩
      · exact ⟨fun _ h => ⟨_, List.mem_singleton.1 h⟩, fun w h => absurd h (List.not_mem_nil w),
          fun _ h => ⟨_, List.mem_singleton.1 h⟩⟩)).2
    ⟨.map [("detail", .str "boom"), ("status", .str "ERR")],
      List.mem_cons_of_mem _ (List.mem_cons_self _ _), by decide⟩

end Surrealtest
